import Mathlib

/-!
Verification of the statement-accumulation and query-classification pipeline
of myoracle.py (an interactive Oracle SQL console client).

The Python source is shallowly embedded: Python strings become `List Char`,
Python methods become pure Lean functions threading their state explicitly.
All definitions are executable, so concrete runs of the embedded code can be
checked by `decide` / `rfl`.
-/

set_option maxRecDepth 40000

namespace MyOracle

/-! ### Python string primitives

Helpers mirroring the Python `str` methods used by the source
(`strip`, `lstrip`, `rstrip`, `lower`, `find`, `startswith`, `endswith`).
Cells and buffers hold ASCII text, for which these models coincide with
CPython's behaviour. -/

/-- The characters Python's `str.isspace` recognises (ASCII range). -/
def py_isspace (c : Char) : Bool :=
  c = ' ' || c = '\t' || c = '\n' || c = '\r' || c = '\x0b' || c = '\x0c'

/-- Python `str.lstrip()`. -/
def pyLstrip (s : List Char) : List Char := s.dropWhile py_isspace

/-- Python `str.rstrip()`. -/
def pyRstrip (s : List Char) : List Char := (s.reverse.dropWhile py_isspace).reverse

/-- Python `str.strip()`. -/
def pyStrip (s : List Char) : List Char := pyLstrip (pyRstrip s)

/-- Python `str.lower()` (ASCII case fold). -/
def pyLower (s : List Char) : List Char := s.map Char.toLower

/-- Python `str.find`: index of the first occurrence of `pat` in `s`
(`none` instead of `-1` when absent). -/
def findSub : List Char → List Char → Option Nat
  | [], pat => if pat.isPrefixOf ([] : List Char) then some 0 else none
  | c :: rest, pat =>
    if pat.isPrefixOf (c :: rest) then some 0
    else (findSub rest pat).map (· + 1)

/-! ### Statement Buffer (`MultilineReadline`)

The buffer state is the `statement_buffer` string; each method becomes a
function from the buffer (plus, for `get_query`, the line the terminal
would deliver) to its result and the new buffer. -/

/-- `statement_terminators` as constructed in `run_ui_query_loop`:
`(';', '\\c', '\\C', '\\g', '\\G')`, in declaration order. -/
def statement_terminators : List (List Char) :=
  [[';'], ['\\', 'c'], ['\\', 'C'], ['\\', 'g'], ['\\', 'G']]

/-- The quit sentinels `('quit', 'quit;', 'exit', 'exit;')`. -/
def quit_statements : List (List Char) :=
  [['q','u','i','t'], ['q','u','i','t',';'], ['e','x','i','t'], ['e','x','i','t',';']]

/-- One iteration of the `for term in self.statement_terminators` loop in
`get_statement_from_buffer`: `i = buf.find(term); if i >= 0 and
i < smallest_index: smallest_index = i + len(term)`. -/
def smallest_index_step (b : List Char) (s : Nat) (t : List Char) : Nat :=
  match findSub b t with
  | some i => if i < s then i + t.length else s
  | none => s

/-- The value of `smallest_index` after the terminator loop of
`get_statement_from_buffer` (initialised to `len(buffer) + 1`). -/
def find_terminator_end (b : List Char) : Nat :=
  statement_terminators.foldl (smallest_index_step b) (b.length + 1)

/-- `MultilineReadline.get_statement_from_buffer`, returning the extracted
part (empty when no terminator is present) together with the new buffer. -/
def get_statement_from_buffer (b : List Char) : List Char × List Char :=
  let s := find_terminator_end b
  if s ≤ b.length then (b.take s, pyLstrip (b.drop s)) else ([], b)

/-- Spec-side rendition of statement extraction (claim C1): scan positions
left to right and return the first position holding a terminator occurrence
together with the terminator, ties at the same position broken by the
declaration order of `T`.  This is the comparison point for the code's
`get_statement_from_buffer`. -/
def earliest_terminator_aux (T : List (List Char)) : List Char → Option (Nat × List Char)
  | [] =>
    match T.find? (fun u => u.isPrefixOf ([] : List Char)) with
    | some t => some (0, t)
    | none => none
  | c :: rest =>
    match T.find? (fun u => u.isPrefixOf (c :: rest)) with
    | some t => some (0, t)
    | none => (earliest_terminator_aux T rest).map (fun p => (p.1 + 1, p.2))

/-- The earliest terminator occurrence in a buffer (smallest start index,
ties broken by declaration order), per the spec's description. -/
def earliest_terminator (b : List Char) : Option (Nat × List Char) :=
  earliest_terminator_aux statement_terminators b

/-- The buffer shape required by the spec invariant of claim C4: ends with
exactly one trailing space and no other trailing whitespace. -/
def ends_one_space (b : List Char) : Bool :=
  match b.reverse with
  | [] => false
  | c :: rest =>
    c = ' ' && (match rest with | [] => true | c2 :: _ => !py_isspace c2)

/-- `MultilineReadline.clean_buffer`. -/
def clean_buffer (b : List Char) : List Char :=
  if pyStrip b = [] then [] else pyRstrip b ++ [' ']

/-- `MultilineReadline.check_for_quit`: `true` when the method raises
`EOFError` (the lowered buffer equals one of the quit sentinels). -/
def check_for_quit (b : List Char) : Bool :=
  quit_statements.any (fun q => pyLower b == q)

/-- Outcome of one `MultilineReadline.get_query` call: the statement string
it returns, the `EOFError` raised by `check_for_quit`, or the implicit
`None` of the final `else` branch. -/
inductive QueryResult where
  | quit : QueryResult
  | stmt : List Char → QueryResult
  | noStmt : QueryResult
deriving DecidableEq, Repr

/-- `MultilineReadline.get_query`. `line` is the string `raw_input` would
deliver if the call reaches its single line-reading step; the result is
paired with the final `statement_buffer`. -/
def get_query (b line : List Char) : QueryResult × List Char :=
  let r1 := get_statement_from_buffer b
  if r1.1 ≠ [] then (QueryResult.stmt r1.1, r1.2)
  else
    let b2 := b ++ line
    if check_for_quit b2 then (QueryResult.quit, b2)
    else
      let r2 := get_statement_from_buffer b2
      if r2.1 ≠ [] then (QueryResult.stmt r2.1, r2.2)
      else (QueryResult.noStmt, clean_buffer r2.2)

/-! ### Macro Rewriter (`SqlQuery.date_macro_substitution`)

The regex `#date\('(.*?)'\)` is modelled directly: a match at position `i`
requires the literal text `#date('` at `i`, then a lazy gap of non-newline
characters (`.` does not match `'\n'`), then the closing `')`.  The literal
parsing inside `get_actual_date` follows CPython's `_strptime`: `%Y` is
exactly four digits; `%m`, `%d`, `%H`, `%M`, `%S` are the one-or-two digit
alternations of `_strptime.TimeRE` (first matching alternative wins — each
field is followed by a non-digit literal or the end of the string, so regex
backtracking can never revisit a choice); whitespace in the format matches
one or more whitespace characters; the whole input must be consumed; the
`datetime` constructor then validates the field ranges.  Rendering uses
Python 2's `datetime.strftime`, which raises `ValueError` for years before
1900 — caught by the same `try`, so such literals count as bad macros. -/

/-- The fixed opening text of the date-macro pattern, `#date('`. -/
def macro_open : List Char := ['#', 'd', 'a', 't', 'e', '(', '\'']

/-- The closing text of the date-macro pattern, `')`. -/
def macro_close : List Char := ['\'', ')']

/-- Search for the closing `')` of a lazy `(.*?)` group: the distance to the
first occurrence of `')`, provided no newline intervenes (`.` does not match
newlines, so a newline before any `')` kills the match at this start). -/
def close_find : List Char → Option Nat
  | [] => none
  | c :: rest =>
    if macro_close.isPrefixOf (c :: rest) then some 0
    else if c = '\n' then none
    else (close_find rest).map (· + 1)

/-- Leftmost match of `#date\('(.*?)'\)`: returns `(start, literal, stop)`
where `start, stop` are the match span and `literal` the group text. -/
def macroSearch : List Char → Option (Nat × List Char × Nat)
  | [] => none
  | c :: rest =>
    match (if macro_open.isPrefixOf (c :: rest)
           then close_find ((c :: rest).drop 7) else none) with
    | some k => some (0, ((c :: rest).drop 7).take k, 7 + k + 2)
    | none => (macroSearch rest).map (fun r => (r.1 + 1, r.2.1, r.2.2 + 1))

/-- Decimal digits of a natural number (Python `'%d' % n` for `n ≥ 0`),
written with explicit fuel so that the kernel can evaluate it. -/
def natDigitsAux : Nat → Nat → List Char → List Char
  | 0, _, acc => acc
  | fuel + 1, n, acc =>
    if n < 10 then Char.ofNat (48 + n) :: acc
    else natDigitsAux fuel (n / 10) (Char.ofNat (48 + n % 10) :: acc)

/-- Decimal representation of a natural number. -/
def natDigits (n : Nat) : List Char := natDigitsAux (n + 1) n []

/-- Zero-pad a digit string on the left to width `w` (Python `'%02d'` etc.). -/
def zfill (w : Nat) (s : List Char) : List Char :=
  List.replicate (w - s.length) '0' ++ s

/-- A parsed `datetime.datetime` value. -/
structure PyDateTime where
  year : Nat
  month : Nat
  day : Nat
  hour : Nat
  minute : Nat
  second : Nat
deriving DecidableEq

/-- Digit value of an ASCII digit character. -/
def digitVal (c : Char) : Nat := c.toNat - 48

/-- `_strptime` directive `%Y`: exactly four digits. -/
def parseY : List Char → Option (Nat × List Char)
  | a :: b :: c :: d :: rest =>
    if a.isDigit && b.isDigit && c.isDigit && d.isDigit then
      some (digitVal a * 1000 + digitVal b * 100 + digitVal c * 10 + digitVal d, rest)
    else none
  | _ => none

/-- `_strptime` directive `%m`: regex `1[0-2]|0[1-9]|[1-9]`. -/
def parseMonth : List Char → Option (Nat × List Char)
  | [] => none
  | [a] => if '1' ≤ a && a ≤ '9' then some (digitVal a, []) else none
  | a :: b :: rest =>
    if a = '1' && '0' ≤ b && b ≤ '2' then some (10 + digitVal b, rest)
    else if a = '0' && '1' ≤ b && b ≤ '9' then some (digitVal b, rest)
    else if '1' ≤ a && a ≤ '9' then some (digitVal a, b :: rest)
    else none

/-- `_strptime` directive `%d`: regex `3[01]|[12]\d|0[1-9]|[1-9]`. -/
def parseDay : List Char → Option (Nat × List Char)
  | [] => none
  | [a] => if '1' ≤ a && a ≤ '9' then some (digitVal a, []) else none
  | a :: b :: rest =>
    if a = '3' && ('0' ≤ b && b ≤ '1') then some (30 + digitVal b, rest)
    else if ('1' ≤ a && a ≤ '2') && b.isDigit then some (digitVal a * 10 + digitVal b, rest)
    else if a = '0' && '1' ≤ b && b ≤ '9' then some (digitVal b, rest)
    else if '1' ≤ a && a ≤ '9' then some (digitVal a, b :: rest)
    else none

/-- `_strptime` directive `%H`: regex `2[0-3]|[0-1]\d|\d`. -/
def parseHour : List Char → Option (Nat × List Char)
  | [] => none
  | [a] => if a.isDigit then some (digitVal a, []) else none
  | a :: b :: rest =>
    if a = '2' && ('0' ≤ b && b ≤ '3') then some (20 + digitVal b, rest)
    else if ('0' ≤ a && a ≤ '1') && b.isDigit then some (digitVal a * 10 + digitVal b, rest)
    else if a.isDigit then some (digitVal a, b :: rest)
    else none

/-- `_strptime` directive `%M`: regex `[0-5]\d|\d`. -/
def parseMinute : List Char → Option (Nat × List Char)
  | [] => none
  | [a] => if a.isDigit then some (digitVal a, []) else none
  | a :: b :: rest =>
    if ('0' ≤ a && a ≤ '5') && b.isDigit then some (digitVal a * 10 + digitVal b, rest)
    else if a.isDigit then some (digitVal a, b :: rest)
    else none

/-- `_strptime` directive `%S`: regex `6[0-1]|[0-5]\d|\d` (leap seconds are
matched by the regex and rejected later by the `datetime` constructor). -/
def parseSecond : List Char → Option (Nat × List Char)
  | [] => none
  | [a] => if a.isDigit then some (digitVal a, []) else none
  | a :: b :: rest =>
    if a = '6' && ('0' ≤ b && b ≤ '1') then some (60 + digitVal b, rest)
    else if ('0' ≤ a && a ≤ '5') && b.isDigit then some (digitVal a * 10 + digitVal b, rest)
    else if a.isDigit then some (digitVal a, b :: rest)
    else none

/-- A literal character in a `strptime` format. -/
def parseLit (c : Char) : List Char → Option (List Char)
  | [] => none
  | a :: rest => if a = c then some rest else none

/-- Whitespace in a `strptime` format matches one or more whitespace
characters (`_strptime` rewrites it to `\s+`). -/
def parseWs : List Char → Option (List Char)
  | [] => none
  | a :: rest => if py_isspace a then some (rest.dropWhile py_isspace) else none

/-- Gregorian leap-year rule used by `datetime`. -/
def isLeapYear (y : Nat) : Bool := y % 4 = 0 && (y % 100 ≠ 0 || y % 400 = 0)

/-- Days in a month, as validated by the `datetime` constructor. -/
def daysInMonth (y m : Nat) : Nat :=
  if m = 2 then (if isLeapYear y then 29 else 28)
  else if m = 4 || m = 6 || m = 9 || m = 11 then 30
  else 31

/-- Field validation done by `datetime.datetime(...)` beyond what the
`_strptime` regex already guarantees: `MINYEAR ≤ year`, the day fits the
month, and seconds 60/61 (admitted by the regex) are rejected. -/
def validDateTime (dt : PyDateTime) : Bool :=
  1 ≤ dt.year && 1 ≤ dt.day && dt.day ≤ daysInMonth dt.year dt.month && dt.second ≤ 59

/-- `datetime.datetime.strptime(s, '%Y-%m-%d %H:%M:%S')`. -/
def strptime_full (s : List Char) : Option PyDateTime :=
  match parseY s with
  | none => none
  | some (y, s) =>
    match parseLit '-' s with
    | none => none
    | some s =>
      match parseMonth s with
      | none => none
      | some (mo, s) =>
        match parseLit '-' s with
        | none => none
        | some s =>
          match parseDay s with
          | none => none
          | some (d, s) =>
            match parseWs s with
            | none => none
            | some s =>
              match parseHour s with
              | none => none
              | some (h, s) =>
                match parseLit ':' s with
                | none => none
                | some s =>
                  match parseMinute s with
                  | none => none
                  | some (mi, s) =>
                    match parseLit ':' s with
                    | none => none
                    | some s =>
                      match parseSecond s with
                      | none => none
                      | some (sec, s) =>
                        if s = [] then
                          let dt : PyDateTime := ⟨y, mo, d, h, mi, sec⟩
                          if validDateTime dt then some dt else none
                        else none

/-- `datetime.datetime.strptime(s, '%Y-%m-%d')` (time fields default to 0). -/
def strptime_date (s : List Char) : Option PyDateTime :=
  match parseY s with
  | none => none
  | some (y, s) =>
    match parseLit '-' s with
    | none => none
    | some s =>
      match parseMonth s with
      | none => none
      | some (mo, s) =>
        match parseLit '-' s with
        | none => none
        | some s =>
          match parseDay s with
          | none => none
          | some (d, s) =>
            if s = [] then
              let dt : PyDateTime := ⟨y, mo, d, 0, 0, 0⟩
              if validDateTime dt then some dt else none
            else none

/-- `time_tuple.strftime('%Y-%m-%d %H:%M:%S')` (fields zero-padded). -/
def strftime_full (dt : PyDateTime) : List Char :=
  zfill 4 (natDigits dt.year) ++ ['-'] ++ zfill 2 (natDigits dt.month) ++ ['-'] ++
  zfill 2 (natDigits dt.day) ++ [' '] ++ zfill 2 (natDigits dt.hour) ++ [':'] ++
  zfill 2 (natDigits dt.minute) ++ [':'] ++ zfill 2 (natDigits dt.second)

/-- One iteration of the `for t_fmt in time_formats` loop inside
`get_actual_date`: attempt `strptime` under one format and render the
`to_date(...)` expression.  Both the parse and the `strftime` call sit
inside the same `try`, and Python 2's `datetime.strftime` raises
`ValueError` for any year before 1900, so a literal that parses but has a
year in 1..1899 also falls through to the next format. -/
def date_format_try (parse_fmt : List Char → Option PyDateTime) (s : List Char) :
    Option (List Char) :=
  match parse_fmt s with
  | some dt =>
    if 1900 ≤ dt.year then
      some (['t','o','_','d','a','t','e','(','\''] ++ strftime_full dt ++
        ['\'',',',' ','\''] ++
        ['Y','Y','Y','Y','-','M','M','-','D','D',' ','H','H','2','4',':','M','I',':','S','S'] ++
        ['\'',')'])
    else none
  | none => none

/-- The nested `get_actual_date` helper of `date_macro_substitution`:
tries `'%Y-%m-%d %H:%M:%S'` then `'%Y-%m-%d'` on the stripped literal and
renders `to_date('...', 'YYYY-MM-DD HH24:MI:SS')`; returns the empty string
when no format succeeds (the literal parses under neither format, or its
year predates 1900 and `strftime` raises inside the `try`). -/
def get_actual_date (date_str : List Char) : List Char :=
  let stripped := pyStrip date_str
  match date_format_try strptime_full stripped with
  | some r => r
  | none =>
    match date_format_try strptime_date stripped with
    | some r => r
    | none => []

/-- The three `SqlQuery` fields that `date_macro_substitution` touches. -/
structure MacroResult where
  query_statement : List Char
  bad_macro_found : Bool
  bad_macro_string : List Char
deriving DecidableEq

/-- The `while macro_match:` loop of `date_macro_substitution`.  The Python
loop has no iteration cap; here it carries explicit fuel (returning `none` on
exhaustion) and `date_macro_substitution` below supplies fuel that is proved
sufficient (the count of `'#'` characters strictly decreases at every
substitution), so the exhaustion branch is unreachable. -/
def date_macro_loop : Nat → List Char → Option MacroResult
  | 0, _ => none
  | fuel + 1, s =>
    match macroSearch s with
    | none => some ⟨s, false, []⟩
    | some (start, lit, stop) =>
      let actual := get_actual_date lit
      if actual = [] then some ⟨s, true, lit⟩
      else date_macro_loop fuel (s.take start ++ actual ++ s.drop stop)

/-- `SqlQuery.date_macro_substitution` (also the whole of
`do_macro_substitution`), acting on a statement string. -/
def date_macro_substitution (s : List Char) : MacroResult :=
  (date_macro_loop (s.count '#' + 1) s).getD ⟨s, false, []⟩

/-! ### Statement Classifier (`SqlQuery.parse_query`) -/

/-- Display-mode constant `HORIZONTAL_TABLE = 0`. -/
def HORIZONTAL_TABLE : Nat := 0

/-- Display-mode constant `HORIZONTAL_TABS = 1`. -/
def HORIZONTAL_TABS : Nat := 1

/-- Display-mode constant `VERTICAL = 2`. -/
def VERTICAL : Nat := 2

/-- The module-level tuple `illegal_query_words`. -/
def illegal_query_words : List (List Char) :=
  [['a','l','t','e','r'],
   ['c','h','e','c','k','p','o','i','n','t'],
   ['c','o','m','m','e','n','t'],
   ['c','o','m','m','i','t'],
   ['c','o','n','s','t','r','a','i','n','t'],
   ['c','r','e','a','t','e'],
   ['d','e','l','e','t','e'],
   ['d','r','o','p'],
   ['i','n','s','e','r','t'],
   ['m','e','r','g','e'],
   ['s','a','v','e','p','o','i','n','t'],
   ['s','e','t'],
   ['t','r','u','n','c','a','t','e'],
   ['u','p','d','a','t','e']]

/-- `SqlQuery.is_illegal_query`, as a function of the statement text. -/
def is_illegal_query (q : List Char) : Bool :=
  let lower_query := pyLower (pyStrip q)
  illegal_query_words.any (fun w => w.isPrefixOf lower_query)

/-- The fields of a `SqlQuery` object after `__init__` ran `parse_query`.
`bad_macro` is named `bad_macro_found` here. -/
structure SqlQuery where
  query_statement : List Char
  view_type : Nat
  cancelled : Bool
  illegal_query : Bool
  bad_macro_found : Bool
  bad_macro_string : List Char
deriving DecidableEq

/-- `SqlQuery.parse_query` (run by `__init__` on the raw statement).
`execute_query` is the truthiness of `cmd_line_options.execute_query`,
i.e. whether the client runs in single-shot `-e` mode. -/
def parse_query (q : List Char) (execute_query : Bool) : SqlQuery :=
  if ['\\','c'].isSuffixOf q || ['\\','C'].isSuffixOf q then
    { query_statement := q, view_type := HORIZONTAL_TABLE, cancelled := true,
      illegal_query := false, bad_macro_found := false, bad_macro_string := [] }
  else
    let illegal := is_illegal_query q
    let mr := date_macro_substitution q
    let t := mr.query_statement
    if execute_query then
      { query_statement := if [';'].isSuffixOf t then t.dropLast else t,
        view_type := HORIZONTAL_TABS, cancelled := false, illegal_query := illegal,
        bad_macro_found := mr.bad_macro_found, bad_macro_string := mr.bad_macro_string }
    else if ['\\','g'].isSuffixOf t || ['\\','G'].isSuffixOf t then
      { query_statement := t.dropLast.dropLast, view_type := VERTICAL,
        cancelled := false, illegal_query := illegal,
        bad_macro_found := mr.bad_macro_found, bad_macro_string := mr.bad_macro_string }
    else if [';'].isSuffixOf t then
      { query_statement := t.dropLast, view_type := HORIZONTAL_TABLE,
        cancelled := false, illegal_query := illegal,
        bad_macro_found := mr.bad_macro_found, bad_macro_string := mr.bad_macro_string }
    else
      { query_statement := t, view_type := HORIZONTAL_TABLE,
        cancelled := false, illegal_query := illegal,
        bad_macro_found := mr.bad_macro_found, bad_macro_string := mr.bad_macro_string }

/-- The terminator-driven display-mode-and-stripping step of `parse_query`
(lines after `do_macro_substitution`), in isolation: maps the
macro-substituted text to the cleaned text and the selected view type. -/
def terminator_cleanup (execute_query : Bool) (t : List Char) : List Char × Nat :=
  if execute_query then
    (if [';'].isSuffixOf t then t.dropLast else t, HORIZONTAL_TABS)
  else if ['\\','g'].isSuffixOf t || ['\\','G'].isSuffixOf t then
    (t.dropLast.dropLast, VERTICAL)
  else if [';'].isSuffixOf t then
    (t.dropLast, HORIZONTAL_TABLE)
  else
    (t, HORIZONTAL_TABLE)

/-! ### Result Renderer (`View` / `HorizontalTableView`)

Result cells are modelled by the value kinds the renderer distinguishes:
strings (the only left-justified type, cf. `left_justified_types = (str,)`),
numbers, and the database `NULL` (Python `None`).  `translate_none_to_null`
replaces `None` cells by `NullType(null_display)` whose `str` is the
configured token; every other cell is stringified with Python `str`. -/

/-- The module-level option `null_display = 'NULL'`. -/
def null_display : List Char := ['N','U','L','L']

/-- One result cell. -/
inductive Cell where
  | str : List Char → Cell
  | num : Int → Cell
  | null : Cell
deriving DecidableEq

/-- Python `str` of a cell after `translate_none_to_null` ran: `None` cells
have been replaced by `NullType(null_display)` whose `__str__` returns the
null token. -/
def cell_str : Cell → List Char
  | Cell.str s => s
  | Cell.num i => (toString i).toList
  | Cell.null => null_display

/-- `translate_none_to_null`: replace every `None` cell by the null token
(modelled functionally; the Python version mutates in place). -/
def translate_none_to_null (results : List (List Cell)) : List (List Cell) :=
  results.map (fun row => row.map (fun c => match c with
    | Cell.null => Cell.str null_display
    | c => c))

/-- `View.get_result_set_summary`. -/
def get_result_set_summary (num_rows : Nat) : List Char :=
  if num_rows > 0 then
    natDigits num_rows ++ [' ','r','o','w','s',' ','i','n',' ','s','e','t','\n','\n']
  else
    ['E','m','p','t','y',' ','s','e','t','\n','\n']

/-- `HorizontalTableView.get_left_justification`: a column is left-justified
as soon as some non-`None` value in it has type `str`.  Rows are rectangular
(every row has the column count of the header, guaranteed by the cursor). -/
def get_left_justification (results : List (List Cell)) : List Bool :=
  results.foldl
    (fun acc row => acc.zipWith
      (fun lj c => lj || (match c with | Cell.str _ => true | _ => false)) row)
    (List.replicate (results.headD []).length false)

/-- `HorizontalTableView.get_col_width`: per-column maximum string length
over all rows (header included). -/
def get_col_width (string_results : List (List (List Char))) : List Nat :=
  string_results.foldl
    (fun acc row => acc.zipWith (fun w c => max w (List.length c)) row)
    (List.replicate (string_results.headD []).length 0)

/-- Pad a string to width `w` with spaces (`'%0ws'` / `'%-0ws'`; the zero
flag is ignored by Python for `%s` conversions, so padding is with spaces). -/
def pad_cell (left_justify : Bool) (w : Nat) (s : List Char) : List Char :=
  if left_justify then s ++ List.replicate (w - s.length) ' '
  else List.replicate (w - s.length) ' ' ++ s

/-- Apply `HorizontalTableView.create_format_string`'s format to one row:
`'|'`-separated cells, each padded to its column width with one space of
margin on either side, terminated by a newline. -/
def format_table_row (ws : List Nat) (ljs : List Bool) (row : List (List Char)) :
    List Char :=
  ['|'] ++
  (List.intercalate ['|']
    ((ws.zip (ljs.zip row)).map
      (fun p => [' '] ++ pad_cell p.2.1 p.1 p.2.2 ++ [' ']))) ++
  ['|', '\n']

/-- `HorizontalTableView.get_header_footer` plus the newline appended by
`print_header_footer`. -/
def header_footer_line (ws : List Nat) : List Char :=
  ['+'] ++
  (List.intercalate ['+'] (ws.map (fun w => List.replicate (w + 2) '-'))) ++
  ['+', '\n']

/-- `HorizontalTableView.format_results` (`want_header = True`): border,
header row, border, data rows, border, then the row-count summary, where the
final `row_num` of the enumeration is `len(string_results) - 1` (the header
row is index 0). -/
def format_results_table (results : List (List Cell)) (header : List (List Char)) :
    List Char :=
  if results = [] then get_result_set_summary 0
  else
    let lj := get_left_justification results
    let translated := translate_none_to_null results
    let header_row := (header.map Cell.str).map cell_str
    let data_rows := translated.map (fun row => row.map cell_str)
    let string_results := header_row :: data_rows
    let ws := get_col_width string_results
    header_footer_line ws ++
    format_table_row ws lj header_row ++
    header_footer_line ws ++
    (data_rows.map (format_table_row ws lj)).foldl (· ++ ·) [] ++
    header_footer_line ws ++
    get_result_set_summary (string_results.length - 1)

/-! ### Shared lemmas about the classifier -/

/-- The `cancelled` flag of a parsed query is exactly the cancel-marker
suffix test performed first by `parse_query`. -/
lemma parse_query_cancelled_eq (q : List Char) (ss : Bool) :
    (parse_query q ss).cancelled =
      (['\\','c'].isSuffixOf q || ['\\','C'].isSuffixOf q) := by
  unfold parse_query
  split
  · next h => exact h.symm
  · next h =>
    simp only [Bool.not_eq_true] at h
    dsimp only
    split <;> (try split) <;> (try split) <;> simp [h]

/-- For a statement without a cancel-marker suffix, `parse_query` factors
into the keyword check, the macro substitution and the terminator-driven
cleanup step, each applied unconditionally. -/
lemma parse_query_no_cancel_components (q : List Char) (ss : Bool)
    (hc : ['\\','c'].isSuffixOf q = false) (hC : ['\\','C'].isSuffixOf q = false) :
    (parse_query q ss).query_statement =
      (terminator_cleanup ss (date_macro_substitution q).query_statement).1 ∧
    (parse_query q ss).view_type =
      (terminator_cleanup ss (date_macro_substitution q).query_statement).2 ∧
    (parse_query q ss).illegal_query = is_illegal_query q ∧
    (parse_query q ss).bad_macro_found = (date_macro_substitution q).bad_macro_found ∧
    (parse_query q ss).bad_macro_string = (date_macro_substitution q).bad_macro_string := by
  have hcond : ¬((['\\','c'].isSuffixOf q || ['\\','C'].isSuffixOf q) = true) := by
    simp [hc, hC]
  unfold parse_query terminator_cleanup
  rw [if_neg hcond]
  dsimp only
  split <;> (try split) <;> (try split) <;> exact ⟨rfl, rfl, rfl, rfl, rfl⟩

/-! ### Claim C3 -/

/-- Claim C3 (amended): the `cancelled` outcome excludes the `illegal` and
macro-error outcomes — a cancelled statement is classified with
`illegal_query = false` and no macro error.  (The claim's full mutual
exclusion fails: `illegal` and a macro error can hold simultaneously, see
the counterexample.) -/
theorem parse_query_cancelled_excludes_others (q : List Char) (ss : Bool)
    (h : (parse_query q ss).cancelled = true) :
    (parse_query q ss).illegal_query = false ∧
    (parse_query q ss).bad_macro_found = false := by
  have hcond : (['\\','c'].isSuffixOf q || ['\\','C'].isSuffixOf q) = true := by
    rw [← parse_query_cancelled_eq q ss]; exact h
  unfold parse_query
  rw [if_pos hcond]
  exact ⟨rfl, rfl⟩

/-- Witness for C3: a concrete cancelled statement. -/
theorem parse_query_cancelled_excludes_others_witness :
    (parse_query "select 1\\c".toList false).illegal_query = false ∧
    (parse_query "select 1\\c".toList false).bad_macro_found = false :=
  parse_query_cancelled_excludes_others "select 1\\c".toList false (by decide)

/-- Counterexample for C3 as stated: a statement that is simultaneously
`illegal` (leading keyword `set`) and carries a macro error, so the four
outcomes are not mutually exclusive. -/
theorem parse_query_illegal_and_macro_error_coexist :
    (parse_query "set #date('x')".toList false).illegal_query = true ∧
    (parse_query "set #date('x')".toList false).bad_macro_found = true ∧
    (parse_query "set #date('x')".toList false).cancelled = false := by decide

/-! ### Claim C5 -/

/-- Claim C5: the three round-trip examples, and in general (for any
statement without cancel-marker suffix) the terminator-driven step strips
`;` (or the two-character `\g`/`\G` suffix) from the macro-substituted text
and selects the display mode per the terminator, with single-shot mode
forcing tab-separated output and stripping only `;`. -/
theorem parse_query_terminator_modes :
    (parse_query "select 1;".toList false =
      ⟨"select 1".toList, HORIZONTAL_TABLE, false, false, false, []⟩) ∧
    (parse_query "select 1\\g".toList false =
      ⟨"select 1".toList, VERTICAL, false, false, false, []⟩) ∧
    (parse_query "select 1;".toList true =
      ⟨"select 1".toList, HORIZONTAL_TABS, false, false, false, []⟩) ∧
    (∀ (q : List Char) (ss : Bool),
      ['\\','c'].isSuffixOf q = false → ['\\','C'].isSuffixOf q = false →
      (parse_query q ss).query_statement =
        (terminator_cleanup ss (date_macro_substitution q).query_statement).1 ∧
      (parse_query q ss).view_type =
        (terminator_cleanup ss (date_macro_substitution q).query_statement).2) := by
  refine ⟨by decide, by decide, by decide, ?_⟩
  intro q ss hc hC
  exact ⟨(parse_query_no_cancel_components q ss hc hC).1,
         (parse_query_no_cancel_components q ss hc hC).2.1⟩

/-- Witness for C5's general clause at a concrete input. -/
theorem parse_query_terminator_modes_witness :
    (parse_query "select 2\\G".toList false).query_statement =
      (terminator_cleanup false
        (date_macro_substitution "select 2\\G".toList).query_statement).1 ∧
    (parse_query "select 2\\G".toList false).view_type =
      (terminator_cleanup false
        (date_macro_substitution "select 2\\G".toList).query_statement).2 :=
  parse_query_terminator_modes.2.2.2 "select 2\\G".toList false (by decide) (by decide)

/-! ### Claim C6 -/

/-- Claim C6 (amended): a statement that after trimming and case-folding
begins with a disallowed keyword is classified `illegal = true`, regardless
of which trailing terminator it carries, provided it does not end with a
cancel marker (`\c`/`\C`), which takes precedence and yields `cancelled`
with `illegal = false` instead. -/
theorem illegal_keyword_sets_illegal_flag (q : List Char) (ss : Bool)
    (hkw : ∃ w ∈ illegal_query_words, w.isPrefixOf (pyLower (pyStrip q)) = true)
    (hc : ['\\','c'].isSuffixOf q = false) (hC : ['\\','C'].isSuffixOf q = false) :
    (parse_query q ss).illegal_query = true := by
  have hil : is_illegal_query q = true := by
    unfold is_illegal_query
    rw [List.any_eq_true]
    exact hkw
  rw [(parse_query_no_cancel_components q ss hc hC).2.2.1]
  exact hil

/-- Witness for C6 at a concrete disallowed statement. -/
theorem illegal_keyword_sets_illegal_flag_witness :
    (parse_query "drop t;".toList false).illegal_query = true :=
  illegal_keyword_sets_illegal_flag "drop t;".toList false
    (by decide) (by decide) (by decide)

/-- Counterexample for C6 as stated: a statement beginning with the
disallowed keyword `drop` but carrying the `\c` terminator is classified
`cancelled`, not `illegal`. -/
theorem illegal_keyword_cancel_marker_overrides :
    (∃ w ∈ illegal_query_words,
      w.isPrefixOf (pyLower (pyStrip "drop x\\c".toList)) = true) ∧
    (parse_query "drop x\\c".toList false).illegal_query = false ∧
    (parse_query "drop x\\c".toList false).cancelled = true := by decide

/-! ### Claim C7 -/

/-- Claim C7 (amended): for a statement classified as illegal (and not
cancelled), macro rewriting is still applied, and — contrary to the claim —
the terminator-driven display-mode-and-stripping step is also applied, not
skipped: the text and view type are exactly those produced by
`terminator_cleanup` on the macro-substituted text. -/
theorem illegal_statement_terminator_step_applies (q : List Char) (ss : Bool)
    (hc : ['\\','c'].isSuffixOf q = false) (hC : ['\\','C'].isSuffixOf q = false)
    (hil : is_illegal_query q = true) :
    (parse_query q ss).illegal_query = true ∧
    (parse_query q ss).bad_macro_found = (date_macro_substitution q).bad_macro_found ∧
    (parse_query q ss).query_statement =
      (terminator_cleanup ss (date_macro_substitution q).query_statement).1 ∧
    (parse_query q ss).view_type =
      (terminator_cleanup ss (date_macro_substitution q).query_statement).2 := by
  obtain ⟨h1, h2, h3, h4, h5⟩ := parse_query_no_cancel_components q ss hc hC
  exact ⟨h3.trans hil, h4, h1, h2⟩

/-- Witness for C7 at a concrete illegal statement. -/
theorem illegal_statement_terminator_step_applies_witness :
    (parse_query "update t;".toList false).illegal_query = true ∧
    (parse_query "update t;".toList false).bad_macro_found =
      (date_macro_substitution "update t;".toList).bad_macro_found ∧
    (parse_query "update t;".toList false).query_statement =
      (terminator_cleanup false
        (date_macro_substitution "update t;".toList).query_statement).1 ∧
    (parse_query "update t;".toList false).view_type =
      (terminator_cleanup false
        (date_macro_substitution "update t;".toList).query_statement).2 :=
  illegal_statement_terminator_step_applies "update t;".toList false
    (by decide) (by decide) (by decide)

/-- Counterexample for C7 as stated: an illegal statement ending in `\g`
has its terminator stripped and its mode set to vertical — the
display-mode step is not skipped and the mode does not stay at the
default. -/
theorem illegal_statement_mode_not_default :
    (parse_query "drop x\\g".toList false).illegal_query = true ∧
    (parse_query "drop x\\g".toList false).view_type = VERTICAL ∧
    (parse_query "drop x\\g".toList false).query_statement = "drop x".toList ∧
    VERTICAL ≠ HORIZONTAL_TABLE := by decide

/-! ### Claim C9 -/

/-- Claim C9 (amended): `check_for_quit` signals end-of-input exactly when
the case-folded buffer — with no whitespace trimming — equals one of
`quit`, `quit;`, `exit`, `exit;`. -/
theorem check_for_quit_exact_match_iff (b : List Char) :
    check_for_quit b = true ↔ pyLower b ∈ quit_statements := by
  simp [check_for_quit, List.any_eq_true]

/-- Counterexample for C9 as stated: a buffer whose trimmed content is the
`quit` sentinel but which carries a leading space does not signal
end-of-input. -/
theorem check_for_quit_ignores_whitespace :
    check_for_quit " quit".toList = false ∧
    pyLower (pyStrip " quit".toList) ∈ quit_statements := by decide

/-! ### Claim C4 -/

/-- The head surviving a `dropWhile` fails the predicate. -/
lemma dropWhile_head_false {p : Char → Bool} {l : List Char} {c : Char}
    {t : List Char} (h : l.dropWhile p = c :: t) : p c = false := by
  induction l with
  | nil => simp at h
  | cons a as ih =>
    rw [List.dropWhile_cons] at h
    split at h
    · exact ih h
    · next hp => cases h; simpa using hp

/-- `clean_buffer` establishes the spec's normalization: the buffer becomes
empty or ends in exactly one trailing space. -/
lemma clean_buffer_normalizes (b : List Char) :
    clean_buffer b = [] ∨ ends_one_space (clean_buffer b) = true := by
  unfold clean_buffer
  split
  · exact Or.inl rfl
  · right
    unfold ends_one_space pyRstrip
    rw [List.reverse_append, List.reverse_reverse]
    cases hd : b.reverse.dropWhile py_isspace with
    | nil => rfl
    | cons c2 t =>
      have hws : py_isspace c2 = false := dropWhile_head_false hd
      simp [hws]

/-- Claim C4 (amended): whenever a `get_query` call completes without
returning a statement — so the next call will reach the line-reading step
with exactly this buffer — the buffer has been normalized by
`clean_buffer`: it is empty or ends with exactly one trailing space.  (At a
line-read that instead follows a successful extraction the remainder is
only left-trimmed and may end with arbitrary whitespace from the ingested
line; see the counterexample.) -/
theorem get_query_no_statement_normalizes_buffer (b line : List Char)
    (h : (get_query b line).1 = QueryResult.noStmt) :
    (get_query b line).2 = [] ∨ ends_one_space (get_query b line).2 = true := by
  revert h
  unfold get_query
  dsimp only
  split
  · intro h; simp at h
  · split
    · intro h; simp at h
    · split
      · intro h; simp at h
      · intro _
        exact clean_buffer_normalizes _

/-- Witness for C4: ingesting a line that completes no statement leaves a
one-space-terminated buffer. -/
theorem get_query_no_statement_normalizes_buffer_witness :
    (get_query [] "ab".toList).2 = [] ∨
    ends_one_space (get_query [] "ab".toList).2 = true :=
  get_query_no_statement_normalizes_buffer [] "ab".toList (by decide)

/-- Counterexample for C4 as stated: after extracting `a;` from the
ingested line `a; b  `, the leftover buffer `b  ` is reachable, contains no
terminator — so the next `get_query` call reaches the line-reading step
with it — yet ends with two trailing spaces. -/
theorem get_query_line_read_buffer_not_normalized :
    get_query [] "a; b  ".toList = (QueryResult.stmt "a;".toList, "b  ".toList) ∧
    (get_statement_from_buffer "b  ".toList).1 = [] ∧
    "b  ".toList ≠ [] ∧
    ends_one_space "b  ".toList = false := by decide

/-! ### Claim C8 -/

/-- Reassociation helper: a five-part prefix before a suffix. -/
lemma append_five_exists (a b c d e s : List Char) :
    ∃ p, a ++ b ++ c ++ d ++ e ++ s = p ++ s :=
  ⟨a ++ b ++ c ++ d ++ e, rfl⟩

/-- Claim C8: bordered-table rendering of an empty result set is exactly
`"Empty set\n\n"` with no border lines, and rendering of a non-empty result
set ends with a summary whose row count is the number of data rows, the
header row not counted. -/
theorem format_results_table_summary_correct :
    (∀ header, format_results_table [] header = "Empty set\n\n".toList) ∧
    (∀ (results : List (List Cell)) (header : List (List Char)), results ≠ [] →
      ∃ p, format_results_table results header =
        p ++ (natDigits results.length ++ " rows in set\n\n".toList)) := by
  constructor
  · intro header
    unfold format_results_table
    rw [if_pos rfl]
    decide
  · intro rs hdr hne
    unfold format_results_table
    rw [if_neg hne]
    dsimp only
    simp only [translate_none_to_null, List.length_cons, List.length_map,
      Nat.add_sub_cancel]
    have hsum : get_result_set_summary rs.length =
        natDigits rs.length ++ " rows in set\n\n".toList := by
      unfold get_result_set_summary
      rw [if_pos (List.length_pos.mpr hne)]
      rfl
    rw [hsum]
    exact append_five_exists _ _ _ _ _ _

/-- Witness for C8's non-empty clause at a concrete one-row result set. -/
theorem format_results_table_summary_correct_witness :
    ∃ p, format_results_table [[Cell.num 1]] ["n".toList] =
      p ++ (natDigits (List.length [[Cell.num 1]]) ++ " rows in set\n\n".toList) :=
  format_results_table_summary_correct.2 [[Cell.num 1]] ["n".toList] (by decide)

/-! ### Claims C2 and C10: the macro rewriting loop

The loop measure is the number of `'#'` characters: every substitution
removes the matched span (whose first character is `'#'`) and inserts a
`to_date(...)` expression containing no `'#'` at all. -/

/-- A list prefix is no longer than the list. -/
lemma isPrefixOf_length_le : ∀ (p u : List Char), p.isPrefixOf u = true → p.length ≤ u.length := by
  intro p
  induction p with
  | nil => intro u _; simp
  | cons a as ih =>
    intro u h
    cases u with
    | nil => simp [List.isPrefixOf] at h
    | cons b bs =>
      simp only [List.isPrefixOf, Bool.and_eq_true] at h
      simpa using ih bs h.2

/-- A nonempty prefix determines the head of the list. -/
lemma isPrefixOf_cons_head {a : Char} {l u : List Char}
    (h : (a :: l).isPrefixOf u = true) : u.head? = some a := by
  cases u with
  | nil => simp [List.isPrefixOf] at h
  | cons b bs =>
    simp only [List.isPrefixOf, Bool.and_eq_true, beq_iff_eq] at h
    simp [h.1]

/-- ASCII digit characters are never `'#'`. -/
lemma digit_char_ne_hash (n : Nat) (h : n < 10) :
    (Char.ofNat (48 + n) == '#') = false := by
  interval_cases n <;> decide

/-- `natDigitsAux` only prepends digit characters. -/
lemma count_hash_natDigitsAux :
    ∀ (fuel n : Nat) (acc : List Char),
      (natDigitsAux fuel n acc).count '#' = acc.count '#' := by
  intro fuel
  induction fuel with
  | zero => intro n acc; rfl
  | succ m ih =>
    intro n acc
    rw [natDigitsAux]
    split
    · next h => simp [List.count_cons, digit_char_ne_hash n h]
    · rw [ih]
      simp [List.count_cons, digit_char_ne_hash (n % 10) (Nat.mod_lt _ (by decide))]

/-- A rendered `to_date(...)` expression contains no `'#'`. -/
lemma count_hash_date_format_try (p : List Char → Option PyDateTime)
    (s r : List Char) (h : date_format_try p s = some r) : r.count '#' = 0 := by
  unfold date_format_try at h
  split at h
  · split at h
    · cases h
      simp [List.count_append, strftime_full, zfill, natDigits,
        count_hash_natDigitsAux, List.count_replicate, List.count_cons]
    · cases h
  · cases h

/-- The replacement text produced by `get_actual_date` contains no `'#'`. -/
lemma count_hash_get_actual_date (l : List Char) :
    (get_actual_date l).count '#' = 0 := by
  unfold get_actual_date
  dsimp only
  split
  · next r hr => exact count_hash_date_format_try _ _ _ hr
  · split
    · next r hr => exact count_hash_date_format_try _ _ _ hr
    · rfl

/-- `close_find` really finds the closing `')`. -/
lemma close_find_close : ∀ (u : List Char) (k : Nat), close_find u = some k →
    macro_close.isPrefixOf (u.drop k) = true := by
  intro u
  induction u with
  | nil => intro k h; simp [close_find] at h
  | cons c rest ih =>
    intro k h
    rw [close_find] at h
    split at h
    · next hp => cases h; exact hp
    · split at h
      · cases h
      · cases hmap : close_find rest with
        | none => rw [hmap] at h; cases h
        | some k2 =>
          rw [hmap] at h
          cases h
          simpa using ih k2 hmap

/-- Span facts about a successful `macroSearch`: the match starts at a
`'#'`, is nonempty, and lies inside the string. -/
lemma macroSearch_spec : ∀ (s : List Char) (st : Nat) (lit : List Char) (sp : Nat),
    macroSearch s = some (st, lit, sp) →
    (s.drop st).head? = some '#' ∧ st + 1 ≤ sp ∧ sp ≤ s.length := by
  intro s
  induction s with
  | nil => intro st lit sp h; simp [macroSearch] at h
  | cons c rest ih =>
    intro st lit sp h
    rw [macroSearch] at h
    split at h
    · next k heq =>
      cases h
      have hopen : macro_open.isPrefixOf (c :: rest) = true := by
        by_cases hp : macro_open.isPrefixOf (c :: rest) = true
        · exact hp
        · rw [if_neg hp] at heq; cases heq
      rw [if_pos hopen] at heq
      have hclose := close_find_close _ _ heq
      have hlen := isPrefixOf_length_le _ _ hclose
      have hL : ((c :: rest).drop 7).length = (c :: rest).length - 7 :=
        List.length_drop 7 _
      have hL2 : (((c :: rest).drop 7).drop k).length = ((c :: rest).drop 7).length - k :=
        List.length_drop k _
      have hml : macro_close.length = 2 := rfl
      have hcl : (c :: rest).length = rest.length + 1 := by simp
      have hhead : (c :: rest).head? = some '#' := isPrefixOf_cons_head hopen
      exact ⟨by simpa using hhead, by omega, by omega⟩
    · next heq =>
      cases hms : macroSearch rest with
      | none => rw [hms] at h; cases h
      | some r =>
        obtain ⟨st2, lit2, sp2⟩ := r
        rw [hms] at h
        simp only [Option.map_some'] at h
        cases h
        obtain ⟨ih1, ih2, ih3⟩ := ih _ _ _ hms
        refine ⟨by simpa using ih1, by omega, ?_⟩
        simp only [List.length_cons]
        omega

/-- Each successful substitution strictly decreases the `'#'` count. -/
lemma subst_count_lt (s : List Char) (st : Nat) (lit : List Char) (sp : Nat)
    (r : List Char) (h : macroSearch s = some (st, lit, sp)) (hr : r.count '#' = 0) :
    (s.take st ++ r ++ s.drop sp).count '#' < s.count '#' := by
  obtain ⟨hhead, hlt, hle⟩ := macroSearch_spec s st lit sp h
  obtain ⟨u, hu⟩ : ∃ u, s.drop st = '#' :: u := by
    cases hds : s.drop st with
    | nil => rw [hds] at hhead; cases hhead
    | cons a v =>
      rw [hds] at hhead
      simp only [List.head?_cons, Option.some.injEq] at hhead
      exact ⟨v, by rw [hhead]⟩
  have hs1 : s.count '#' =
      (s.take st).count '#' + ((s.drop st).take (sp - st)).count '#' +
        (s.drop sp).count '#' := by
    conv_lhs => rw [← List.take_append_drop st s]
    rw [List.count_append]
    have h2 : s.drop st =
        (s.drop st).take (sp - st) ++ ((s.drop st).drop (sp - st)) :=
      (List.take_append_drop _ _).symm
    have h3 : (s.drop st).drop (sp - st) = s.drop sp := by
      rw [List.drop_drop]
      congr 1
      omega
    rw [h3] at h2
    conv_lhs => rw [h2]
    rw [List.count_append]
    ring
  have hmid : 1 ≤ ((s.drop st).take (sp - st)).count '#' := by
    rw [hu]
    cases hsp : sp - st with
    | zero => omega
    | succ m =>
      rw [List.take_succ_cons]
      simp [List.count_cons]
  have hnew : (s.take st ++ r ++ s.drop sp).count '#' =
      (s.take st).count '#' + (s.drop sp).count '#' := by
    rw [List.count_append, List.count_append, hr]
    ring
  omega

/-- Claim C10: the macro-substitution loop terminates — fuel exceeding the
`'#'` count of the statement is always sufficient, because every iteration
either returns or strictly decreases that count. -/
theorem date_macro_loop_terminates : ∀ (n : Nat) (s : List Char),
    s.count '#' < n → (date_macro_loop n s).isSome = true := by
  intro n
  induction n with
  | zero => intro s h; omega
  | succ m ih =>
    intro s h
    cases hm : macroSearch s with
    | none => simp [date_macro_loop, hm]
    | some r =>
      obtain ⟨st, lit, sp⟩ := r
      simp only [date_macro_loop, hm]
      split
      · simp
      · apply ih
        have := subst_count_lt s st lit sp (get_actual_date lit) hm
          (count_hash_get_actual_date lit)
        omega

/-- Witness for C10 at a concrete input and fuel. -/
theorem date_macro_loop_terminates_witness :
    (date_macro_loop 1 ([] : List Char)).isSome = true :=
  date_macro_loop_terminates 1 [] (by decide)

/-- Claim C2 (amended): when the leftmost `#date('...')` literal fails —
`get_actual_date` returns the empty string because the literal parses under
neither format, or parses with a year before 1900 which Python 2's
`strftime` rejects inside the same `try` — the rewriter reports exactly
that literal and leaves the statement text fully unmodified.  (When an
earlier macro was substituted successfully its substitution remains in the
text — see the counterexample.) -/
theorem date_macro_substitution_first_fail_unmodified (s : List Char) (st : Nat)
    (lit : List Char) (sp : Nat) (hs : macroSearch s = some (st, lit, sp))
    (hb : get_actual_date lit = []) :
    date_macro_substitution s = ⟨s, true, lit⟩ := by
  unfold date_macro_substitution
  simp only [date_macro_loop, hs]
  rw [if_pos hb]
  rfl

/-- Witness for C2: the leftmost literal `1600-01-01` parses but its year
predates 1900, so the program rejects it (a later unparsable macro is never
reached) and the text stays unmodified. -/
theorem date_macro_substitution_first_fail_unmodified_witness :
    date_macro_substitution "#date('1600-01-01') #date('x')".toList =
      ⟨"#date('1600-01-01') #date('x')".toList, true, "1600-01-01".toList⟩ :=
  date_macro_substitution_first_fail_unmodified
    "#date('1600-01-01') #date('x')".toList 0
    "1600-01-01".toList 19 (by decide) (by decide)

/-- Counterexample for C2 as stated: when an earlier `#date` macro parsed
successfully and a later one fails, the failure is reported but the
statement text is no longer identical to the pre-rewrite text — the first
substitution stays applied. -/
theorem date_macro_substitution_partial_rewrite_on_fail :
    (date_macro_substitution "#date('2020-01-02') #date('x')".toList).bad_macro_found
      = true ∧
    (date_macro_substitution "#date('2020-01-02') #date('x')".toList).bad_macro_string
      = "x".toList ∧
    (date_macro_substitution "#date('2020-01-02') #date('x')".toList).query_statement
      ≠ "#date('2020-01-02') #date('x')".toList := by decide

/-! ### Claim C1: statement extraction picks the earliest terminator

The code's terminator loop keeps `smallest_index = i + len(term)` and
compares the next find result against that end position rather than against
the winning start position.  The proof below shows this still computes the
spec's earliest-occurrence selection, because for this terminator set a
second terminator can never start strictly inside a matched terminator. -/

/-- `findSub` finds an occurrence, and the first one. -/
lemma findSub_some : ∀ (s pat : List Char) (i : Nat), findSub s pat = some i →
    pat.isPrefixOf (s.drop i) = true ∧
    ∀ j, j < i → pat.isPrefixOf (s.drop j) = false := by
  intro s
  induction s with
  | nil =>
    intro pat i h
    rw [findSub] at h
    split at h
    · next hp => cases h; exact ⟨hp, fun j hj => absurd hj (by omega)⟩
    · cases h
  | cons c rest ih =>
    intro pat i h
    rw [findSub] at h
    split at h
    · next hp => cases h; exact ⟨hp, fun j hj => absurd hj (by omega)⟩
    · next hp =>
      cases hfr : findSub rest pat with
      | none => rw [hfr] at h; cases h
      | some i2 =>
        rw [hfr] at h
        simp only [Option.map_some'] at h
        cases h
        obtain ⟨h1, h2⟩ := ih pat i2 hfr
        refine ⟨h1, ?_⟩
        intro j hj
        cases j with
        | zero => exact Bool.eq_false_iff.mpr hp
        | succ j2 => exact h2 j2 (by omega)

/-- When `findSub` fails, the pattern occurs nowhere. -/
lemma findSub_none : ∀ (s pat : List Char), findSub s pat = none → pat ≠ [] →
    ∀ j, pat.isPrefixOf (s.drop j) = false := by
  intro s
  induction s with
  | nil =>
    intro pat h _ j
    rw [findSub] at h
    split at h
    · cases h
    · next hp =>
      rw [List.drop_nil]
      exact Bool.eq_false_iff.mpr hp
  | cons c rest ih =>
    intro pat h hne j
    rw [findSub] at h
    split at h
    · cases h
    · next hp =>
      have hfr : findSub rest pat = none := by
        cases hfr : findSub rest pat with
        | none => rfl
        | some i2 => rw [hfr] at h; simp at h
      cases j with
      | zero => exact Bool.eq_false_iff.mpr hp
      | succ j2 => exact ih pat hfr hne j2

/-- Forward characterization of `earliest_terminator_aux` at a hit. -/
lemma earliest_aux_some : ∀ (T : List (List Char)) (s : List Char) (i : Nat)
    (t : List Char), earliest_terminator_aux T s = some (i, t) →
    T.find? (fun u => u.isPrefixOf (s.drop i)) = some t ∧
    ∀ j, j < i → T.find? (fun u => u.isPrefixOf (s.drop j)) = none := by
  intro T s
  induction s with
  | nil =>
    intro i t h
    rw [earliest_terminator_aux] at h
    split at h
    · next t0 hf => cases h; exact ⟨hf, fun j hj => absurd hj (by omega)⟩
    · cases h
  | cons c rest ih =>
    intro i t h
    rw [earliest_terminator_aux] at h
    split at h
    · next t0 hf => cases h; exact ⟨hf, fun j hj => absurd hj (by omega)⟩
    · next hf =>
      cases haux : earliest_terminator_aux T rest with
      | none => rw [haux] at h; cases h
      | some p =>
        obtain ⟨i2, t2⟩ := p
        rw [haux] at h
        simp only [Option.map_some'] at h
        cases h
        obtain ⟨g1, g2⟩ := ih _ _ haux
        refine ⟨g1, ?_⟩
        intro j hj
        cases j with
        | zero => exact hf
        | succ j2 => exact g2 j2 (by omega)

/-- Forward characterization of `earliest_terminator_aux` at a miss. -/
lemma earliest_aux_none : ∀ (T : List (List Char)) (s : List Char),
    earliest_terminator_aux T s = none →
    ∀ j, T.find? (fun u => u.isPrefixOf (s.drop j)) = none := by
  intro T s
  induction s with
  | nil =>
    intro h j
    rw [earliest_terminator_aux] at h
    split at h
    · cases h
    · next hf => rw [List.drop_nil]; exact hf
  | cons c rest ih =>
    intro h j
    rw [earliest_terminator_aux] at h
    split at h
    · cases h
    · next hf =>
      have haux : earliest_terminator_aux T rest = none := by
        cases haux : earliest_terminator_aux T rest with
        | none => rfl
        | some p => rw [haux] at h; simp at h
      cases j with
      | zero => exact hf
      | succ j2 => exact ih haux j2

/-- Introduction rule: a witnessed first position determines
`earliest_terminator_aux`. -/
lemma earliest_aux_intro_some : ∀ (T : List (List Char)) (s : List Char) (i : Nat)
    (t : List Char),
    T.find? (fun u => u.isPrefixOf (s.drop i)) = some t →
    (∀ j, j < i → T.find? (fun u => u.isPrefixOf (s.drop j)) = none) →
    earliest_terminator_aux T s = some (i, t) := by
  intro T s
  induction s with
  | nil =>
    intro i t h1 h2
    cases i with
    | zero =>
      rw [earliest_terminator_aux]
      simp only [List.drop_zero] at h1
      rw [h1]
    | succ i2 =>
      exfalso
      have h0 := h2 0 (by omega)
      simp only [List.drop_zero] at h0
      simp only [List.drop_nil] at h1
      rw [h0] at h1
      cases h1
  | cons c rest ih =>
    intro i t h1 h2
    cases i with
    | zero =>
      rw [earliest_terminator_aux]
      simp only [List.drop_zero] at h1
      rw [h1]
    | succ i2 =>
      rw [earliest_terminator_aux]
      have h0 := h2 0 (by omega)
      simp only [List.drop_zero] at h0
      rw [h0]
      have hrec := ih i2 t (by simpa using h1)
        (fun j hj => by simpa using h2 (j + 1) (by omega))
      rw [hrec]
      rfl

/-- Introduction rule: no occurrence anywhere means no extraction. -/
lemma earliest_aux_intro_none : ∀ (T : List (List Char)) (s : List Char),
    (∀ j, T.find? (fun u => u.isPrefixOf (s.drop j)) = none) →
    earliest_terminator_aux T s = none := by
  intro T s
  induction s with
  | nil =>
    intro h
    rw [earliest_terminator_aux]
    have h0 := h 0
    simp only [List.drop_zero] at h0
    rw [h0]
  | cons c rest ih =>
    intro h
    rw [earliest_terminator_aux]
    have h0 := h 0
    simp only [List.drop_zero] at h0
    rw [h0]
    have hrec := ih (fun j => by simpa using h (j + 1))
    rw [hrec]
    rfl

/-- With no terminators at all there is never a hit. -/
lemma earliest_aux_nil_terms : ∀ s : List Char,
    earliest_terminator_aux [] s = none := by
  intro s
  apply earliest_aux_intro_none
  intro j
  rfl

/-- `find?` over a one-element extension of the list. -/
lemma find?_append_one (T : List (List Char)) (t : List Char)
    (p : List Char → Bool) :
    (T ++ [t]).find? p =
      (match T.find? p with
       | some u => some u
       | none => if p t then some t else none) := by
  induction T with
  | nil =>
    simp only [List.nil_append, List.find?]
    cases hp : p t <;> simp [hp]
  | cons a as ih =>
    simp only [List.cons_append, List.find?]
    cases hp : p a
    · dsimp only
      exact ih
    · rfl

/-- Every terminator is nonempty. -/
lemma sts_ne : ∀ u ∈ statement_terminators, u ≠ [] := by decide

/-- Terminators are one or two characters long. -/
lemma sts_len : ∀ u ∈ statement_terminators, u.length = 1 ∨ u.length = 2 := by decide

/-- The only one-character terminator is `;`. -/
lemma sts_len_one : ∀ u ∈ statement_terminators, u.length = 1 → u = [';'] := by decide

/-- Two-character terminators start with a backslash. -/
lemma sts_head_two : ∀ u ∈ statement_terminators,
    u.length = 2 → u.head? = some '\\' := by decide

/-- Every terminator starts with `;` or a backslash. -/
lemma sts_head_mem : ∀ u ∈ statement_terminators,
    u.head? = some ';' ∨ u.head? = some '\\' := by decide

/-- No terminator has `;` or a backslash as its second character. -/
lemma sts_snd : ∀ u ∈ statement_terminators,
    u.get? 1 ≠ some ';' ∧ u.get? 1 ≠ some '\\' := by decide

/-- A nonempty prefix pins down the head of the larger list. -/
lemma isPrefixOf_head (u w : List Char) (hne : u ≠ []) (h : u.isPrefixOf w = true) :
    w.head? = u.head? := by
  cases u with
  | nil => exact absurd rfl hne
  | cons a l =>
    rw [isPrefixOf_cons_head h]
    rfl

/-- A two-character prefix exposes the first two characters. -/
lemma isPrefixOf_two (u w : List Char) (hl : u.length = 2)
    (h : u.isPrefixOf w = true) :
    ∃ c1 c2 rest, u = [c1, c2] ∧ w = c1 :: c2 :: rest := by
  rcases u with _ | ⟨c1, _ | ⟨c2, _ | ⟨c3, u⟩⟩⟩
  · cases hl
  · cases hl
  · rcases w with _ | ⟨a, _ | ⟨a2, rest⟩⟩
    · simp [List.isPrefixOf] at h
    · simp [List.isPrefixOf] at h
    · simp only [List.isPrefixOf, Bool.and_eq_true, beq_iff_eq] at h
      obtain ⟨e1, e2, _⟩ := h
      exact ⟨c1, c2, rest, rfl, by rw [e1, e2]⟩
  · simp at hl

/-- An occurrence fits inside the string. -/
lemma occ_le_length (t b : List Char) (i : Nat) (hne : t ≠ [])
    (h : t.isPrefixOf (b.drop i) = true) : i + t.length ≤ b.length := by
  have h1 := isPrefixOf_length_le t _ h
  rw [List.length_drop] at h1
  have h2 : 1 ≤ t.length := List.length_pos.mpr hne
  omega

/-- Two terminators occurring at the same position have the same length
(`;` cannot share a start with a backslash terminator). -/
lemma same_pos_length_eq (t tp w : List Char) (ht : t ∈ statement_terminators)
    (htp : tp ∈ statement_terminators) (h1 : t.isPrefixOf w = true)
    (h2 : tp.isPrefixOf w = true) : t.length = tp.length := by
  have clash : ∀ (u v : List Char), u ∈ statement_terminators →
      v ∈ statement_terminators → u.length = 1 → v.length = 2 →
      u.isPrefixOf w = true → v.isPrefixOf w = true → False := by
    intro u v hu hv hu1 hv2 hup hvp
    have e1 : u = [';'] := sts_len_one u hu hu1
    have e2 : v.head? = some '\\' := sts_head_two v hv hv2
    have w1 : w.head? = u.head? := isPrefixOf_head u w (sts_ne u hu) hup
    have w2 : w.head? = v.head? := isPrefixOf_head v w (sts_ne v hv) hvp
    rw [e1] at w1
    rw [e2] at w2
    rw [w1] at w2
    exact absurd w2 (by decide)
  rcases sts_len t ht with hl1 | hl1 <;> rcases sts_len tp htp with hl2 | hl2
  · rw [hl1, hl2]
  · exact (clash t tp ht htp hl1 hl2 h1 h2).elim
  · exact (clash tp t htp ht hl2 hl1 h2 h1).elim
  · rw [hl1, hl2]

/-- No terminator can start one position inside a two-character
terminator occurrence: the second character of `\c`, `\C`, `\g`, `\G` is a
letter, never `;` or `\`. -/
lemma no_term_at_next (tp t w : List Char) (htp : tp ∈ statement_terminators)
    (hl : tp.length = 2) (ht : t ∈ statement_terminators)
    (h1 : tp.isPrefixOf w = true) (h2 : t.isPrefixOf w.tail = true) : False := by
  obtain ⟨c1, c2, rest, hu, hw⟩ := isPrefixOf_two tp w hl h1
  have hsnd := sts_snd tp htp
  rw [hu] at hsnd
  simp only [List.get?, ne_eq, Option.some.injEq] at hsnd
  have htail : w.tail = c2 :: rest := by rw [hw]; rfl
  have hhead : (w.tail).head? = t.head? := isPrefixOf_head t _ (sts_ne t ht) h2
  rw [htail] at hhead
  simp only [List.head?_cons] at hhead
  rcases sts_head_mem t ht with he | he <;> rw [he] at hhead <;>
    simp only [Option.some.injEq] at hhead
  · exact hsnd.1 hhead
  · exact hsnd.2 hhead


/-- The terminator loop of `get_statement_from_buffer` computes exactly the
end position of the spec's earliest-occurrence selection (over any subset of
the declared terminators, by induction on the processed terminators). -/
lemma foldl_eq_earliest :
    ∀ (T : List (List Char)), (∀ u ∈ T, u ∈ statement_terminators) →
    ∀ (b : List Char),
      T.foldl (smallest_index_step b) (b.length + 1) =
        ((earliest_terminator_aux T b).map
          (fun p => p.1 + p.2.length)).getD (b.length + 1) := by
  intro T
  induction T using List.reverseRecOn with
  | nil =>
    intro _ b
    rw [List.foldl_nil, earliest_aux_nil_terms]
    rfl
  | append_singleton T t ih =>
    intro hmem b
    have hT : ∀ u ∈ T, u ∈ statement_terminators :=
      fun u hu => hmem u (List.mem_append_left _ hu)
    have ht : t ∈ statement_terminators := hmem t (by simp)
    have htne : t ≠ [] := sts_ne t ht
    have htpos : 1 ≤ t.length := List.length_pos.mpr htne
    rw [List.foldl_append, List.foldl_cons, List.foldl_nil, ih hT b]
    cases haux : earliest_terminator_aux T b with
    | none =>
      simp only [Option.map_none', Option.getD_none]
      have hnoT := earliest_aux_none T b haux
      cases hf : findSub b t with
      | none =>
        have hnot := findSub_none b t hf htne
        have hext : earliest_terminator_aux (T ++ [t]) b = none := by
          apply earliest_aux_intro_none
          intro j
          rw [find?_append_one, hnoT j]
          simp [hnot j]
        rw [hext]
        simp [smallest_index_step, hf]
      | some it =>
        obtain ⟨hocc, hmin⟩ := findSub_some b t it hf
        have hle := occ_le_length t b it htne hocc
        have hext : earliest_terminator_aux (T ++ [t]) b = some (it, t) := by
          apply earliest_aux_intro_some
          · rw [find?_append_one, hnoT it]
            simp [hocc]
          · intro j hj
            rw [find?_append_one, hnoT j]
            simp [hmin j hj]
        rw [hext]
        simp only [Option.map_some', Option.getD_some, smallest_index_step, hf]
        rw [if_pos (by omega)]
    | some p =>
      obtain ⟨ip, tp⟩ := p
      simp only [Option.map_some', Option.getD_some]
      obtain ⟨hfind, hnone⟩ := earliest_aux_some T b ip tp haux
      have htp_mem : tp ∈ T := List.mem_of_find?_eq_some hfind
      have htp_sts : tp ∈ statement_terminators := hT tp htp_mem
      have htp_ne : tp ≠ [] := sts_ne tp htp_sts
      have htp_occ0 := List.find?_some hfind
      have htp_occ : tp.isPrefixOf (b.drop ip) = true := htp_occ0
      have htp_pos : 1 ≤ tp.length := List.length_pos.mpr htp_ne
      cases hf : findSub b t with
      | none =>
        have hnot := findSub_none b t hf htne
        have hext : earliest_terminator_aux (T ++ [t]) b = some (ip, tp) := by
          apply earliest_aux_intro_some
          · rw [find?_append_one, hfind]
          · intro j hj
            rw [find?_append_one, hnone j hj]
            simp [hnot j]
        rw [hext]
        simp [smallest_index_step, hf]
      | some it =>
        obtain ⟨hocc, hmin⟩ := findSub_some b t it hf
        rcases Nat.lt_trichotomy it ip with hlt | heq | hgt
        · have hext : earliest_terminator_aux (T ++ [t]) b = some (it, t) := by
            apply earliest_aux_intro_some
            · rw [find?_append_one, hnone it hlt]
              simp [hocc]
            · intro j hj
              rw [find?_append_one, hnone j (lt_trans hj hlt)]
              simp [hmin j hj]
          rw [hext]
          simp only [Option.map_some', Option.getD_some, smallest_index_step, hf]
          rw [if_pos (by omega)]
        · subst heq
          have hlen_eq : t.length = tp.length :=
            same_pos_length_eq t tp (b.drop it) ht htp_sts hocc htp_occ
          have hext : earliest_terminator_aux (T ++ [t]) b = some (it, tp) := by
            apply earliest_aux_intro_some
            · rw [find?_append_one, hfind]
            · intro j hj
              rw [find?_append_one, hnone j hj]
              simp [hmin j hj]
          rw [hext]
          simp only [Option.map_some', Option.getD_some, smallest_index_step, hf]
          rw [if_pos (by omega)]
          omega
        · have hnup : ¬(it < ip + tp.length) := by
            intro hcl
            rcases sts_len tp htp_sts with h1 | h2
            · omega
            · have hit : it = ip + 1 := by omega
              subst hit
              refine no_term_at_next tp t (b.drop ip) htp_sts h2 ht htp_occ ?_
              rw [List.tail_drop]
              exact hocc
          have hext : earliest_terminator_aux (T ++ [t]) b = some (ip, tp) := by
            apply earliest_aux_intro_some
            · rw [find?_append_one, hfind]
            · intro j hj
              rw [find?_append_one, hnone j hj]
              simp [hmin j (lt_trans hj hgt)]
          rw [hext]
          simp only [Option.map_some', Option.getD_some, smallest_index_step, hf]
          rw [if_neg hnup]

/-- Claim C1: `get_statement_from_buffer` is governed by the spec's
earliest-terminator selection: a terminator occurs in the buffer exactly
when `earliest_terminator` finds one; when the earliest occurrence (ties at
the same index broken by declaration order) is terminator `t` at index `i`,
the extracted statement is the buffer prefix through the end of that
occurrence, the prefix is removed and the remainder left-trimmed; with no
occurrence the extraction returns the empty string and leaves the buffer
unchanged. -/
theorem get_statement_from_buffer_extracts_earliest (b : List Char) :
    ((earliest_terminator b).isSome = true ↔
      ∃ i t, t ∈ statement_terminators ∧ t.isPrefixOf (b.drop i) = true) ∧
    (∀ i t, earliest_terminator b = some (i, t) →
      get_statement_from_buffer b =
        (b.take (i + t.length), pyLstrip (b.drop (i + t.length)))) ∧
    (earliest_terminator b = none → get_statement_from_buffer b = ([], b)) := by
  have hfold := foldl_eq_earliest statement_terminators (fun u hu => hu) b
  refine ⟨⟨?_, ?_⟩, ?_, ?_⟩
  · intro hs
    cases haux : earliest_terminator b with
    | none => rw [haux] at hs; cases hs
    | some p =>
      obtain ⟨i, t⟩ := p
      obtain ⟨hfind, _⟩ := earliest_aux_some _ _ _ _ haux
      have hocc0 := List.find?_some hfind
      exact ⟨i, t, List.mem_of_find?_eq_some hfind, hocc0⟩
  · rintro ⟨i, t, hmem, hocc⟩
    cases haux : earliest_terminator b with
    | some p => rfl
    | none =>
      exfalso
      have hnone := earliest_aux_none _ _ haux i
      rw [List.find?_eq_none] at hnone
      exact hnone t hmem hocc
  · intro i t haux
    obtain ⟨hfind, _⟩ := earliest_aux_some _ _ _ _ haux
    have hmem : t ∈ statement_terminators := List.mem_of_find?_eq_some hfind
    have hocc0 := List.find?_some hfind
    have hocc : t.isPrefixOf (b.drop i) = true := hocc0
    have hle : i + t.length ≤ b.length := occ_le_length t b i (sts_ne t hmem) hocc
    unfold get_statement_from_buffer find_terminator_end
    rw [hfold]
    unfold earliest_terminator at haux
    rw [haux]
    simp only [Option.map_some', Option.getD_some]
    rw [if_pos hle]
  · intro haux
    unfold get_statement_from_buffer find_terminator_end
    rw [hfold]
    unfold earliest_terminator at haux
    rw [haux]
    simp only [Option.map_none', Option.getD_none]
    rw [if_neg (by omega)]

/-- Witness for C1 at a concrete buffer whose earliest terminator is the
`;` at index 1. -/
theorem get_statement_from_buffer_extracts_earliest_witness :
    get_statement_from_buffer "a;b".toList =
      ("a;b".toList.take (1 + List.length [';']),
       pyLstrip ("a;b".toList.drop (1 + List.length [';']))) :=
  (get_statement_from_buffer_extracts_earliest "a;b".toList).2.1 1 [';'] (by decide)

end MyOracle
